import Mathlib

/-!
Verification development for the `pair_helper` repository.

The Python sources are shallowly embedded: pure functions become Lean
functions on `List Char` / `Nat` / `Int` / `ℚ`; code that can raise
becomes `Except`; the external Docker execution and the wall clock are
parameters (oracles / injected `now`), matching the spec's
injected-clock design note.  Character classes of the Python regexes
(`\s`, `\d`) and `str.lower` are modelled at ASCII granularity, which
covers every input used in the theorems below.
-/

set_option maxRecDepth 40000

namespace PairHelper

/-- Python `\s` (ASCII range): space, tab, newline, carriage return,
vertical tab, form feed. -/
def pyIsSpace (c : Char) : Bool :=
  c = ' ' || c = '\t' || c = '\n' || c = '\r' || c = '\x0b' || c = '\x0c'

/-- Is `pat` a prefix of `l`?  (Own recursion, so that everything
reduces in the kernel.) -/
def listIsPre : List Char → List Char → Bool
  | [], _ => true
  | _ :: _, [] => false
  | p :: ps, c :: cs => p = c && listIsPre ps cs

/-- Python `pat in hay` (substring containment). -/
def listContainsSub (pat : List Char) : List Char → Bool
  | [] => pat.isEmpty
  | c :: cs => listIsPre pat (c :: cs) || listContainsSub pat cs

/-- Python `str.strip()` (ASCII whitespace). -/
def pyStripL (l : List Char) : List Char :=
  ((l.dropWhile pyIsSpace).reverse.dropWhile pyIsSpace).reverse

/-- Python `str.split(sep)` for a one-character separator: keeps empty
pieces, exactly like Python. -/
def splitOnCharAux (sep : Char) : List Char → List Char → List (List Char)
  | [], acc => [acc.reverse]
  | c :: cs, acc =>
    if c = sep then acc.reverse :: splitOnCharAux sep cs []
    else splitOnCharAux sep cs (c :: acc)

def splitOnChar (sep : Char) (l : List Char) : List (List Char) :=
  splitOnCharAux sep l []

/-- Digits of a decimal literal to a number. -/
def natOfDigits : List Char → Nat :=
  List.foldl (fun n c => n * 10 + (c.toNat - '0'.toNat)) 0

/-- Python `int(s)`: strip whitespace, optional sign, then a nonempty
run of decimal digits; anything else raises `ValueError` (`none`).
(Underscore digit separators and non-ASCII digits are not modelled.) -/
def pyInt (s : List Char) : Option Int :=
  let t := pyStripL s
  match t with
  | '-' :: rest =>
    if rest ≠ [] ∧ rest.all Char.isDigit then some (-(natOfDigits rest : Int)) else none
  | '+' :: rest =>
    if rest ≠ [] ∧ rest.all Char.isDigit then some (natOfDigits rest : Int) else none
  | rest =>
    if rest ≠ [] ∧ rest.all Char.isDigit then some (natOfDigits rest : Int) else none

/-- First-found lookup in an association list (a Python `dict.get`). -/
def lookupA {α : Type} : List (String × α) → String → Option α
  | [], _ => none
  | (k, v) :: rest, key => if k = key then some v else lookupA rest key

/-- Write a key/value pair into an association-list store: replace the
existing binding, else append (a Python `d[k] = v`). -/
def writeFile : List (String × String) → String → String → List (String × String)
  | [], name, content => [(name, content)]
  | (k, v) :: rest, name, content =>
    if k = name then (k, content) :: rest else (k, v) :: writeFile rest name content

/-- Python list slice `l[:e]` (a negative `e` counts from the end). -/
def pySliceTo {α : Type} (l : List α) (e : Int) : List α :=
  if e < 0 then l.take ((l.length : Int) + e).toNat else l.take e.toNat

/-- Python indexing `l[i]` (a negative `i` counts from the end;
`none` is an `IndexError`). -/
def pyIndex {α : Type} (l : List α) (i : Int) : Option α :=
  if 0 ≤ i then l.get? i.toNat
  else if 0 ≤ (l.length : Int) + i then l.get? ((l.length : Int) + i).toNat
  else none

/-- Did an `Except` computation return normally? -/
def isOkE {ε α : Type} : Except ε α → Bool
  | .ok _ => true
  | .error _ => false

/-- Python `int(q)` on a real quantity: truncation toward zero. -/
def pyIntTrunc (q : ℚ) : Int :=
  if 0 ≤ q then ⌊q⌋ else ⌈q⌉

/-- Errors a Python run can raise in the embedded fragments. -/
inductive PyErr : Type
  /-- `subprocess.TimeoutExpired` wrapped by `docker_command`. -/
  | execTimeout : PyErr
  /-- Docker missing (`FileNotFoundError` wrapped by `docker_command`). -/
  | execMissingDocker : PyErr
  /-- any other launch failure wrapped by `docker_command`. -/
  | execOther : PyErr
  /-- Python `IndexError`. -/
  | indexError : PyErr
  /-- Python `ValueError` (bad `int()` literal). -/
  | valueError : PyErr
deriving DecidableEq, Repr

/-! ## `backend/runner.py`: `parse_unittest_output` -/

/-- Match `Ran\s+(\d+)\s+tests?` at the head of the list, returning the
captured count.  Because `\s`, `\d` and the literal pieces are pairwise
disjoint character classes, maximal munch coincides with the regex
backtracking semantics here. -/
def matchRanAt : List Char → Option Nat
  | 'R' :: 'a' :: 'n' :: rest =>
    let ws1 := rest.takeWhile pyIsSpace
    if ws1.isEmpty then none else
    let r1 := rest.dropWhile pyIsSpace
    let ds := r1.takeWhile Char.isDigit
    if ds.isEmpty then none else
    let r2 := r1.dropWhile Char.isDigit
    let ws2 := r2.takeWhile pyIsSpace
    if ws2.isEmpty then none else
    let r3 := r2.dropWhile pyIsSpace
    if listIsPre "test".toList r3 then some (natOfDigits ds) else none
  | _ => none

/-- `re.search(r"Ran\s+(\d+)\s+tests?", ·)`: leftmost match wins. -/
def searchRanCapture : List Char → Option Nat
  | [] => none
  | c :: cs =>
    match matchRanAt (c :: cs) with
    | some n => some n
    | none => searchRanCapture cs

/-- Match `FAILED\s+\(([^)]+)\)` at the head of the list, returning the
captured group. -/
def matchFailedAt : List Char → Option (List Char)
  | 'F' :: 'A' :: 'I' :: 'L' :: 'E' :: 'D' :: rest =>
    let ws := rest.takeWhile pyIsSpace
    if ws.isEmpty then none else
    match rest.dropWhile pyIsSpace with
    | '(' :: r2 =>
      let grp := r2.takeWhile (fun c => c ≠ ')')
      if grp.isEmpty then none
      else
        match r2.dropWhile (fun c => c ≠ ')') with
        | ')' :: _ => some grp
        | _ => none
    | _ => none
  | _ => none

/-- `re.search(r"FAILED\s+\(([^)]+)\)", ·)`: leftmost match wins. -/
def searchFailedGroup : List Char → Option (List Char)
  | [] => none
  | c :: cs =>
    match matchFailedAt (c :: cs) with
    | some g => some g
    | none => searchFailedGroup cs

/-- The loop over the comma-split pieces of the `FAILED (...)` group:
`failures`/`errors` are overwritten by `int(part.split("=")[1])`, which
raises `ValueError` on a bad literal. -/
def collectCounts : List (List Char) → Int → Int → Except PyErr (Int × Int)
  | [], f, e => .ok (f, e)
  | p :: ps, f, e =>
    if listIsPre "failures=".toList p then
      match pyInt (((splitOnChar '=' p).get? 1).getD []) with
      | none => .error .valueError
      | some v => collectCounts ps v e
    else if listIsPre "errors=".toList p then
      match pyInt (((splitOnChar '=' p).get? 1).getD []) with
      | none => .error .valueError
      | some v => collectCounts ps f v
    else collectCounts ps f e

/-- failures/errors extraction from the `FAILED (...)` summary line
(0, 0 when no such line matches). -/
def failedCounts (cs : List Char) : Except PyErr (Int × Int) :=
  match searchFailedGroup cs with
  | none => .ok (0, 0)
  | some grp => collectCounts ((splitOnChar ',' grp).map pyStripL) 0 0

/-- `backend/runner.py` `parse_unittest_output`: total from the
`Ran N tests` line, failures/errors from the `FAILED (...)` line,
`passed = max(0, total - failures - errors)`. -/
def parse_unittest_output (output : String) : Except PyErr (Int × Nat) :=
  let total : Nat := (searchRanCapture output.toList).getD 0
  match failedCounts output.toList with
  | .error e => .error e
  | .ok (f, e2) => .ok (max 0 ((total : Int) - f - e2), total)

/-! ## `backend/questions.py` data model and `backend/runner.py` aggregation

The Docker execution in `run_suite` (`docker_command` + output parsing)
is the external effect; the aggregation is parameterised by an oracle
`runSuite : String → Except PyErr SuiteResult` giving, per test target,
either the `run_suite` result dict or the raised `ExecutionError`.
-/

/-- `questions.py` `Stage` (declarative stage description). -/
structure Stage : Type where
  name : String
  visible_tests : List String
  hidden_tests : List String
  reveal_files : List String
deriving DecidableEq, Repr

/-- `questions.py` `QuestionConfig`.  The fields `environment`, `tags`
and `estimated_difficulty` are never read by the embedded code and are
omitted. -/
structure QuestionConfig : Type where
  name : String
  visible_files : List String
  entrypoint : String
  default_duration_minutes : Int
  stages : List Stage
deriving DecidableEq, Repr

/-- The dict returned by `runner.py` `run_suite`. -/
structure SuiteResult : Type where
  exit_code : Int
  output : String
  passed : Nat
  total : Nat
deriving DecidableEq, Repr

/-- The dict returned by `runner.py` `run_stage_tests`. -/
structure StageResult : Type where
  visible_pass : Nat
  visible_total : Nat
  hidden_pass : Nat
  hidden_total : Nat
  output : String
  passed : Bool
deriving DecidableEq, Repr

/-- The response dict of `runner.py` `run_code`: the `visible` part. -/
structure VisiblePart : Type where
  passed : Nat
  total : Nat
  output : String
deriving DecidableEq, Repr

/-- The response dict of `runner.py` `run_code`: the `hidden` part. -/
structure HiddenPart : Type where
  passed : Nat
  total : Nat
deriving DecidableEq, Repr

/-- The response dict of `runner.py` `run_code`: the `stage` part. -/
structure StagePart : Type where
  current_index : Int
  total_stages : Nat
  current_passed : Bool
  unlocked_next : Bool
  name : String
deriving DecidableEq, Repr

/-- The full response dict of `runner.py` `run_code`. -/
structure RunResponse : Type where
  visible : VisiblePart
  hidden : HiddenPart
  final_score : ℚ
  stage : StagePart
deriving DecidableEq, Repr

/-- Sequential effectful map: the first raised error aborts, exactly
like a Python `for` loop over fallible calls. -/
def mapExcept {α β : Type} (f : α → Except PyErr β) : List α → Except PyErr (List β)
  | [] => .ok []
  | a :: as =>
    match f a with
    | .error e => .error e
    | .ok b =>
      match mapExcept f as with
      | .error e => .error e
      | .ok bs => .ok (b :: bs)

/-- `"\n".join(strings)`. -/
def joinNewline : List String → String
  | [] => ""
  | [s] => s
  | s :: rest => s ++ "\n" ++ joinNewline rest

/-- `runner.py` `run_stage_tests`: run every visible then hidden target
of one stage, sum the pass/total counts (`result["passed"] or 0` is the
identity on the ints produced by `run_suite`), keep the visible outputs
that are nonempty, and compute the stage verdict. -/
def run_stage_tests (runSuite : String → Except PyErr SuiteResult) (stage : Stage) :
    Except PyErr StageResult :=
  match mapExcept runSuite stage.visible_tests with
  | .error e => .error e
  | .ok vis =>
    match mapExcept runSuite stage.hidden_tests with
    | .error e => .error e
    | .ok hid =>
      let visible_pass := (vis.map SuiteResult.passed).sum
      let visible_total := (vis.map SuiteResult.total).sum
      let hidden_pass := (hid.map SuiteResult.passed).sum
      let hidden_total := (hid.map SuiteResult.total).sum
      let all_exited_zero := (vis ++ hid).all (fun r => r.exit_code = 0)
      .ok { visible_pass := visible_pass
            visible_total := visible_total
            hidden_pass := hidden_pass
            hidden_total := hidden_total
            output := joinNewline ((vis.map SuiteResult.output).filter (fun o => o ≠ ""))
            passed := (visible_pass = visible_total : Bool) &&
                      (hidden_pass = hidden_total : Bool) && all_exited_zero }

/-- The stage list `run_code` iterates over:
`cfg.stages[: min(stage_index, len(cfg.stages) - 1) + 1]`
with Python slice semantics. -/
def executedStages (cfg : QuestionConfig) (stage_index : Int) : List Stage :=
  pySliceTo cfg.stages (min stage_index ((cfg.stages.length : Int) - 1) + 1)

/-- `runner.py` `run_code` on an already-materialized workspace: runs
the stages up to `max_stage = min(stage_index, len(stages) - 1)`,
aggregates, and builds the response dict.  The accumulated
`*_pass_total` variables of the source are dead code (the response
reads only the last stage's entry) and are not carried.  The stage name
lookup `cfg.stages[max_stage]` uses Python indexing and can raise
`IndexError`. -/
def run_code (runSuite : String → Except PyErr SuiteResult) (cfg : QuestionConfig)
    (stage_index : Int) : Except PyErr RunResponse :=
  let max_stage : Int := min stage_index ((cfg.stages.length : Int) - 1)
  match mapExcept (run_stage_tests runSuite) (executedStages cfg stage_index) with
  | .error e => .error e
  | .ok stage_results =>
    let lastR := stage_results.getLast?
    let current_stage_passed := match lastR with
      | some r => r.passed
      | none => false
    -- `all(r["passed"] for r in stage_results) if stage_results else False`
    let all_passed_so_far := !stage_results.isEmpty && stage_results.all StageResult.passed
    let unlocked_next := all_passed_so_far &&
      (max_stage + 1 < (cfg.stages.length : Int) : Bool)
    let total_stages := cfg.stages.length
    let stages_passed := (stage_results.filter StageResult.passed).length
    let final_score : ℚ :=
      if 0 < total_stages then ((stages_passed : ℚ) / (total_stages : ℚ)) * 100 else 0
    let nameRes : Except PyErr String :=
      if cfg.stages.isEmpty then .ok ""
      else
        match pyIndex cfg.stages max_stage with
        | some st => .ok st.name
        | none => .error .indexError
    match nameRes with
    | .error e => .error e
    | .ok nm =>
      .ok { visible := { passed := match lastR with
                          | some r => r.visible_pass
                          | none => 0
                         total := match lastR with
                          | some r => r.visible_total
                          | none => 0
                         output := match lastR with
                          | some r => r.output
                          | none => "" }
            hidden := { passed := match lastR with
                          | some r => r.hidden_pass
                          | none => 0
                        total := match lastR with
                          | some r => r.hidden_total
                          | none => 0 }
            final_score := final_score
            stage := { current_index := max_stage
                       total_stages := total_stages
                       current_passed := current_stage_passed
                       unlocked_next := unlocked_next
                       name := nm } }

/-- `run_stage_tests` under an oracle that never raises, as a pure
computation (bridged to `run_stage_tests` by `run_stage_tests_total`). -/
def stageResPure (f : String → SuiteResult) (stage : Stage) : StageResult :=
  let vis := stage.visible_tests.map f
  let hid := stage.hidden_tests.map f
  let visible_pass := (vis.map SuiteResult.passed).sum
  let visible_total := (vis.map SuiteResult.total).sum
  let hidden_pass := (hid.map SuiteResult.passed).sum
  let hidden_total := (hid.map SuiteResult.total).sum
  { visible_pass := visible_pass
    visible_total := visible_total
    hidden_pass := hidden_pass
    hidden_total := hidden_total
    output := joinNewline ((vis.map SuiteResult.output).filter (fun o => o ≠ ""))
    passed := (visible_pass = visible_total : Bool) &&
              (hidden_pass = hidden_total : Bool) &&
              (vis ++ hid).all (fun r => r.exit_code = 0) }

/-! ## `backend/questions.py`: `materialize_question`

The filesystem is a flat association store name → content: `root` holds
the question directory's regular files, the destination starts empty
(a fresh temp dir).  Directories are never copied by the source
(`path.is_file()`), so a file-only model is exact.
-/

/-- First phase of `materialize_question`: for every declared visible
file, write the candidate's override when present, else the question's
stock copy when present, else skip. -/
def materializeVisible (root ov : List (String × String)) :
    List String → List (String × String) → List (String × String)
  | [], dest => dest
  | rel :: rest, dest =>
    match (match lookupA ov rel with
           | some c => some c
           | none => lookupA root rel) with
    | none => materializeVisible root ov rest dest
    | some c => materializeVisible root ov rest (writeFile dest rel c)

/-- Second phase of `materialize_question`: copy every question file
that is neither declared visible nor `question.json` verbatim. -/
def materializeRest (visible : List String) :
    List (String × String) → List (String × String) → List (String × String)
  | [], dest => dest
  | (nm, c) :: rest, dest =>
    if nm ∈ visible then materializeRest visible rest dest
    else if nm = "question.json" then materializeRest visible rest dest
    else materializeRest visible rest (writeFile dest nm c)

/-- `questions.py` `materialize_question`, for a question whose config
declares `visible` as `cfg.visible_files` and whose directory holds
`root`: returns the destination tree. -/
def materialize_question (root : List (String × String)) (visible : List String)
    (override_files : List (String × String)) : List (String × String) :=
  materializeRest visible root (materializeVisible root override_files visible [])

/-! ## `src/pair_programming_voice_bot/modes.py` -/

/-- The two driving modes. -/
inductive Mode : Type
  | bot_drives : Mode
  | human_drives : Mode
deriving DecidableEq, Repr

/-- `BOT_SWITCH_PHRASES`. -/
def BOT_SWITCH_PHRASES : List String :=
  ["take over", "you drive", "bot drives", "your turn"]

/-- `HUMAN_SWITCH_PHRASES` (the apostrophe is written `\x27`). -/
def HUMAN_SWITCH_PHRASES : List String :=
  ["let me try", "i\x27ll drive", "my turn", "i will drive"]

/-- ASCII lower-casing of Python `str.lower()`. -/
def pyLower (l : List Char) : List Char :=
  l.map Char.toLower

/-- `modes.py` `normalize_utterance`:
`" ".join(text.lower().strip().replace("-", " ").split())`. -/
def splitWsAux : List Char → List Char → List (List Char)
  | [], acc => if acc.isEmpty then [] else [acc.reverse]
  | c :: cs, acc =>
    if pyIsSpace c then
      if acc.isEmpty then splitWsAux cs [] else acc.reverse :: splitWsAux cs []
    else splitWsAux cs (c :: acc)

/-- Python `str.split()` (no argument): split on whitespace runs,
dropping empty pieces. -/
def pySplitWs (l : List Char) : List (List Char) :=
  splitWsAux l []

/-- Interleave single spaces: `" ".join(words)`. -/
def joinSpace : List (List Char) → List Char
  | [] => []
  | [w] => w
  | w :: rest => w ++ ' ' :: joinSpace rest

def normalize_utterance (text : String) : List Char :=
  joinSpace (pySplitWs ((pyStripL (pyLower text.toList)).map
    (fun c => if c = '-' then ' ' else c)))

/-- `modes.py` `detect_mode_command`: bot phrases are checked first,
first match wins. -/
def detect_mode_command (utterance : String) : Option Mode :=
  let normalized := normalize_utterance utterance
  if BOT_SWITCH_PHRASES.any (fun p => listContainsSub p.toList normalized) then
    some Mode.bot_drives
  else if HUMAN_SWITCH_PHRASES.any (fun p => listContainsSub p.toList normalized) then
    some Mode.human_drives
  else none

/-- `modes.py` `ModeTransition`. -/
structure ModeTransition : Type where
  previous : Mode
  current : Mode
  trigger : String
deriving DecidableEq, Repr

/-- `ModeStateMachine.set_mode`: the machine state is its current
`Mode`; returns the optional transition record and the new state. -/
def set_mode (current : Mode) (mode : Mode) (trigger : String) :
    Option ModeTransition × Mode :=
  if mode = current then (none, current)
  else (some { previous := current, current := mode, trigger := trigger }, mode)

/-- `ModeStateMachine.apply_voice_command`. -/
def apply_voice_command (current : Mode) (utterance : String) :
    Option ModeTransition × Mode :=
  match detect_mode_command utterance with
  | none => (none, current)
  | some target => set_mode current target utterance

/-! ## `src/pair_programming_voice_bot/struggle_detector.py`

Timestamps are rationals (an injected clock, per the spec's design
note); `hashlib.md5(...).hexdigest()` is an abstract digest function
carried in the parameters.
-/

/-- A context value of a `StruggleSignal` (`int` or `str`). -/
inductive CtxVal : Type
  | i : Int → CtxVal
  | s : String → CtxVal
deriving DecidableEq, Repr

/-- `StruggleSignal`. -/
structure StruggleSignal : Type where
  kind : String
  timestamp : ℚ
  context : List (String × CtxVal)
deriving DecidableEq, Repr

/-- The `StruggleDetector` constructor arguments (`backtrack_frac`
embeds the source's backtrack ratio field) plus the md5 digest as an
abstract function. -/
structure DetParams : Type where
  idle_threshold_seconds : ℚ
  level_wall_seconds : ℚ
  backtrack_frac : ℚ
  nudge_cooldown : ℚ
  digest : String → String

/-- The mutable state of a `StruggleDetector` (`_last_signal_time`
starts at `-math.inf`, modelled as `none`). -/
structure DetState : Type where
  last_edit_time : Option ℚ
  run_results : List (Int × String × Int)
  code_snapshots : List String
  level_start_time : List (Int × ℚ)
  lastSignal : Option ℚ

/-- The detector's initial state. -/
def initDetState : DetState :=
  { last_edit_time := none, run_results := [], code_snapshots := [],
    level_start_time := [], lastSignal := none }

/-- `StruggleDetector._emit`: suppressed entirely when within
`nudge_cooldown` of the last emission, else emit and update the shared
last-signal timestamp. -/
def emitSig (p : DetParams) (st : DetState) (kind : String) (now : ℚ)
    (ctx : List (String × CtxVal)) : Option StruggleSignal × DetState :=
  match st.lastSignal with
  | some t =>
    if now - t < p.nudge_cooldown then (none, st)
    else (some { kind := kind, timestamp := now, context := ctx },
          { st with lastSignal := some now })
  | none => (some { kind := kind, timestamp := now, context := ctx },
             { st with lastSignal := some now })

/-- Integer-keyed association lookup (for `level_start_time`). -/
def lookupI {α : Type} : List (Int × α) → Int → Option α
  | [], _ => none
  | (k, v) :: rest, key => if k = key then some v else lookupI rest key

/-- Integer-keyed association write (`dict[k] = v`). -/
def writeI {α : Type} : List (Int × α) → Int → α → List (Int × α)
  | [], k, v => [(k, v)]
  | (k0, v0) :: rest, k, v =>
    if k0 = k then (k0, v) :: rest else (k0, v0) :: writeI rest k v

/-- `on_code_update`: possible `backtrack` emission, then record the
snapshot and the edit time. -/
def on_code_update (p : DetParams) (st : DetState) (code : String) (now : ℚ) :
    Option StruggleSignal × DetState :=
  let pr :=
    match st.code_snapshots.getLast? with
    | some previous =>
      if (code.length : Int) < pyIntTrunc ((previous.length : ℚ) * (1 - p.backtrack_frac)) then
        emitSig p st "backtrack" now
          [("previous_size", .i previous.length), ("current_size", .i code.length)]
      else (none, st)
    | none => (none, st)
  (pr.1, { pr.2 with code_snapshots := pr.2.code_snapshots ++ [code],
                     last_edit_time := some now })

/-- `on_run_result`: record `(exit_code, digest, stage_index)`, emit
`repeated_failure` when the last two records share exit code and digest
and the exit code is nonzero. -/
def on_run_result (p : DetParams) (st : DetState) (exit_code : Int) (stderr : String)
    (stage_index : Int) (now : ℚ) : Option StruggleSignal × DetState :=
  let digest := p.digest stderr
  let prev := st.run_results.getLast?
  let st1 := { st with run_results := st.run_results ++ [(exit_code, digest, stage_index)] }
  match prev with
  | some (e0, d0, _) =>
    if e0 = exit_code ∧ d0 = digest ∧ exit_code ≠ 0 then
      emitSig p st1 "repeated_failure" now
        [("stage_index", .i stage_index), ("exit_code", .i exit_code)]
    else (none, st1)
  | none => (none, st1)

/-- `on_level_start`. -/
def on_level_start (st : DetState) (level : Int) (now : ℚ) : DetState :=
  { st with level_start_time := writeI st.level_start_time level now }

/-- The fixed help markers of `on_user_message`. -/
def helpMarkers : List String :=
  ["help", "stuck", "hint", "what should i do", "not sure"]

/-- `on_user_message`: emit `explicit_ask` when the lower-cased message
contains a help marker. -/
def on_user_message (p : DetParams) (st : DetState) (message : String) (now : ℚ) :
    Option StruggleSignal × DetState :=
  let normalized := pyLower message.toList
  if helpMarkers.any (fun m => listContainsSub m.toList normalized) then
    emitSig p st "explicit_ask" now [("message", .s message)]
  else (none, st)

/-- `check_idle`. -/
def check_idle (p : DetParams) (st : DetState) (tests_still_failing : Bool) (now : ℚ) :
    Option StruggleSignal × DetState :=
  match st.last_edit_time with
  | none => (none, st)
  | some le =>
    if !tests_still_failing then (none, st)
    else if p.idle_threshold_seconds ≤ now - le then
      emitSig p st "long_pause" now [("seconds", .i (pyIntTrunc (now - le)))]
    else (none, st)

/-- `check_level_wall`. -/
def check_level_wall (p : DetParams) (st : DetState) (current_level : Int) (now : ℚ) :
    Option StruggleSignal × DetState :=
  match lookupI st.level_start_time current_level with
  | none => (none, st)
  | some started =>
    if p.level_wall_seconds ≤ now - started then
      emitSig p st "level_wall" now
        [("level", .i current_level), ("seconds", .i (pyIntTrunc (now - started)))]
    else (none, st)

/-- One telemetry event fed to the detector, with its injected
timestamp. -/
inductive DetEvent : Type
  | codeUpdate (code : String) (now : ℚ)
  | runResult (exit_code : Int) (stderr : String) (stage_index : Int) (now : ℚ)
  | levelStart (level : Int) (now : ℚ)
  | userMessage (message : String) (now : ℚ)
  | idleCheck (tests_still_failing : Bool) (now : ℚ)
  | levelWallCheck (level : Int) (now : ℚ)

/-- The timestamp an event carries. -/
def eventTime : DetEvent → ℚ
  | .codeUpdate _ now => now
  | .runResult _ _ _ now => now
  | .levelStart _ now => now
  | .userMessage _ now => now
  | .idleCheck _ now => now
  | .levelWallCheck _ now => now

/-- Dispatch one event to the corresponding detector method. -/
def detStep (p : DetParams) (st : DetState) : DetEvent → Option StruggleSignal × DetState
  | .codeUpdate code now => on_code_update p st code now
  | .runResult e s i now => on_run_result p st e s i now
  | .levelStart l now => (none, on_level_start st l now)
  | .userMessage m now => on_user_message p st m now
  | .idleCheck b now => check_idle p st b now
  | .levelWallCheck l now => check_level_wall p st l now

/-- Feed a whole event sequence, collecting the emitted signals in
order. -/
def processEvents (p : DetParams) : DetState → List DetEvent →
    List StruggleSignal × DetState
  | st, [] => ([], st)
  | st, e :: es =>
    match detStep p st e with
    | (o, st1) =>
      match processEvents p st1 es with
      | (sigs, st2) => (o.toList ++ sigs, st2)

/-! ## `backend/sessions.py` and `backend/config.py` -/

/-- Session duration bounds and default (`backend/config.py`). -/
def DEFAULT_DURATION_MINUTES : Int := 60

def MIN_DURATION_MINUTES : Int := 1

def MAX_DURATION_MINUTES : Int := 120

/-- A session's status (`"active"` / `"expired"`). -/
inductive Status : Type
  | active : Status
  | expired : Status
deriving DecidableEq, Repr

/-- `sessions.py` `Session`, with `started_at` in seconds on the
injected clock. -/
structure Session : Type where
  session_id : String
  question_name : String
  started_at : ℚ
  duration_minutes : Int
  status : Status
  final_score : Option ℚ
  current_stage_index : Int
deriving DecidableEq, Repr

/-- The store behind `SessionStore` (`_sessions`). -/
abbrev SessionStoreT : Type := List (String × Session)

/-- Replace the binding of `k` (Python mutates the stored object). -/
def updateS (st : SessionStoreT) (k : String) (v : Session) : SessionStoreT :=
  st.map (fun p => if p.1 = k then (k, v) else p)

/-- `dict[k] = v`: overwrite when present, else add. -/
def insertS (st : SessionStoreT) (k : String) (v : Session) : SessionStoreT :=
  match lookupA st k with
  | some _ => updateS st k v
  | none => st ++ [(k, v)]

/-- `SessionStore.remaining_seconds`:
`max(0, int((started_at + duration*60s - now).total_seconds()))`. -/
def remaining_seconds (s : Session) (now : ℚ) : Int :=
  max 0 (pyIntTrunc (s.started_at + 60 * (s.duration_minutes : ℚ) - now))

/-- The status refresh `SessionStore.get` performs on the session it
found. -/
def Session.onGet (s : Session) (now : ℚ) : Session :=
  if s.status = Status.active ∧ remaining_seconds s now ≤ 0 then
    { s with status := Status.expired }
  else s

/-- `SessionStore.get`: returns the (lazily expired) session and the
store after the in-place mutation. -/
def SessionStore.get (st : SessionStoreT) (session_id : String) (now : ℚ) :
    Option Session × SessionStoreT :=
  match lookupA st session_id with
  | none => (none, st)
  | some s =>
    let s1 := Session.onGet s now
    (some s1, updateS st session_id s1)

/-- The per-session effect of `SessionStore.mark_score`. -/
def Session.markScore (s : Session) (score : ℚ) (now : ℚ) : Session :=
  let s1 := { s with final_score := some score }
  if s1.status ≠ Status.expired ∧ remaining_seconds s1 now ≤ 0 then
    { s1 with status := Status.expired }
  else s1

/-- `SessionStore.mark_score` on the store. -/
def SessionStore.markScore (st : SessionStoreT) (session_id : String) (score : ℚ)
    (now : ℚ) : SessionStoreT :=
  match lookupA st session_id with
  | none => st
  | some s => updateS st session_id (Session.markScore s score now)

/-- The per-session effect of `SessionStore.advance_stage`. -/
def Session.advanceStage (s : Session) : Session :=
  { s with current_stage_index := s.current_stage_index + 1 }

/-- `SessionStore.advance_stage` on the store. -/
def SessionStore.advanceStage (st : SessionStoreT) (session_id : String) : SessionStoreT :=
  match lookupA st session_id with
  | none => st
  | some s => updateS st session_id (Session.advanceStage s)

/-- `SessionStore.create` with injected uuid and clock.  Note the
source's `duration_minutes or DEFAULT_DURATION_MINUTES`: a provided
`0` is falsy in Python and falls back to the default. -/
def SessionStore.create (st : SessionStoreT) (session_id : String)
    (question_name : String) (duration_minutes : Option Int) (now : ℚ) :
    Session × SessionStoreT :=
  let duration0 : Int :=
    match duration_minutes with
    | none => DEFAULT_DURATION_MINUTES
    | some d => if d = 0 then DEFAULT_DURATION_MINUTES else d
  let duration := max MIN_DURATION_MINUTES (min MAX_DURATION_MINUTES duration0)
  let s : Session :=
    { session_id := session_id, question_name := question_name, started_at := now,
      duration_minutes := duration, status := Status.active, final_score := none,
      current_stage_index := 0 }
  (s, insertS st session_id s)

/-! ## `src/pair_programming_voice_bot/workspace.py`: `apply_patch`

The workspace is an association store path → content (`_resolve`'s
path-escape check concerns the host filesystem and is outside this
model; paths are exact keys).
-/

/-- A `WorkspaceError`. -/
inductive WorkspaceError : Type
  | fileNotFound : WorkspaceError
  | patchMatches : Nat → WorkspaceError
deriving DecidableEq, Repr

/-- Python `content.count(old)`: non-overlapping occurrences scanned
from the left; an empty pattern counts `len + 1`. -/
def countOccAux (pat : List Char) : List Char → Nat
  | [] => 0
  | c :: cs =>
    if listIsPre pat (c :: cs) ∧ pat ≠ [] then
      1 + countOccAux pat (cs.drop (pat.length - 1))
    else countOccAux pat cs
termination_by l => l.length
decreasing_by
  · simp only [List.length_cons]
    have h := List.length_drop (pat.length - 1) cs
    omega
  · simp only [List.length_cons]; omega

def pyCount (hay pat : List Char) : Nat :=
  if pat = [] then hay.length + 1 else countOccAux pat hay

/-- Python `content.replace(old, new, 1)`: replace the leftmost
occurrence only (an empty pattern inserts at the front). -/
def replaceFirstAux (pat new : List Char) : List Char → List Char
  | [] => []
  | c :: cs =>
    if listIsPre pat (c :: cs) ∧ pat ≠ [] then new ++ cs.drop (pat.length - 1)
    else c :: replaceFirstAux pat new cs

def pyReplaceOne (hay pat new : List Char) : List Char :=
  if pat = [] then new ++ hay else replaceFirstAux pat new hay

/-- `workspace.py` `QuestionWorkspace.apply_patch`: on the store, with
the new store and the success message on success. -/
def apply_patch (ws : List (String × String)) (file_path old_text new_text : String) :
    Except WorkspaceError (List (String × String) × String) :=
  match lookupA ws file_path with
  | none => .error .fileNotFound
  | some content =>
    let nMatches := pyCount content.toList old_text.toList
    if nMatches ≠ 1 then .error (.patchMatches nMatches)
    else
      .ok (writeFile ws file_path
             (String.mk (pyReplaceOne content.toList old_text.toList new_text.toList)),
           "Patched " ++ file_path ++ ".")

/-! ## Concrete instances used by witnesses and counterexamples -/

/-- A suite run where everything passes. -/
def okSuite : SuiteResult :=
  { exit_code := 0, output := "Ran 2 tests\n\nOK", passed := 2, total := 2 }

/-- A total execution oracle: every target passes. -/
def suiteAll : String → SuiteResult := fun _ => okSuite

def oracleAllPass : String → Except PyErr SuiteResult := fun t => .ok (suiteAll t)

/-- An oracle whose every execution times out. -/
def oracleTimeout : String → Except PyErr SuiteResult := fun _ => .error .execTimeout

def stageA : Stage :=
  { name := "Stage 1", visible_tests := ["t.py"], hidden_tests := ["h.py"],
    reveal_files := [] }

def stageB : Stage :=
  { name := "Stage 2", visible_tests := ["t2.py"], hidden_tests := [],
    reveal_files := [] }

/-- A two-stage question configuration. -/
def cfgTwoStages : QuestionConfig :=
  { name := "q", visible_files := ["main.py"], entrypoint := "t.py",
    default_duration_minutes := 60, stages := [stageA, stageB] }

/-- Detector parameters with the default 60-second cooldown and the
identity as digest stand-in. -/
def detP : DetParams :=
  { idle_threshold_seconds := 30, level_wall_seconds := 300, backtrack_frac := 1/5,
    nudge_cooldown := 60, digest := fun s => s }

/-- A one-minute session started at time 0. -/
def sessA : Session :=
  { session_id := "a", question_name := "q", started_at := 0, duration_minutes := 1,
    status := Status.active, final_score := none, current_stage_index := 0 }

/-- An already-expired session. -/
def sessExp : Session :=
  { sessA with session_id := "b", status := Status.expired }

/-- A small question directory. -/
def rootQ : List (String × String) :=
  [("main.py", "STOCK"), ("hidden_level2.py", "HID"), ("question.json", "\x7b\x7d"),
   ("desc.md", "D")]

/-! # Theorems -/

/-! ## C6: `parse_unittest_output` -/

/-- C6, counterexample: the claim says `parse_unittest_output` returns a
`(passed, total)` pair for every output string, but an output whose
`FAILED (...)` summary carries a non-numeric count makes the source's
`int(part.split("=")[1])` raise `ValueError` instead of returning. -/
theorem c6_counterexample :
    parse_unittest_output "Ran 2 tests\nFAILED (failures=x)" =
      Except.error PyErr.valueError := by
  rfl

/-- C6, amended: whenever `parse_unittest_output` does return, the total
comes from the `Ran N tests` line (0 when absent), failures/errors come
from the `FAILED (...)` line via `failedCounts`, and
`passed = max 0 (total - failures - errors)` (hence `passed ≥ 0`); an
output matching neither summary regex yields `(passed, total) = (0, 0)`.
Determinism is definitional: the embedding is a pure function of the
output string. -/
theorem c6_parse_characterization (out : String) :
    (searchRanCapture out.toList = none ∧ searchFailedGroup out.toList = none →
      parse_unittest_output out = .ok (0, 0)) ∧
    (∀ p : Int, ∀ t : Nat, parse_unittest_output out = .ok (p, t) →
      t = (searchRanCapture out.toList).getD 0 ∧
      ∃ f e, failedCounts out.toList = .ok (f, e) ∧
        p = max 0 ((t : Int) - f - e) ∧ 0 ≤ p) := by
  constructor
  · rintro ⟨hr, hf⟩
    unfold parse_unittest_output failedCounts
    simp only [String.toList] at hr hf ⊢
    rw [hf, hr]
    simp
  · intro p t h
    unfold parse_unittest_output at h
    rcases hfc : failedCounts out.toList with e | ⟨f, e2⟩
    · rw [hfc] at h
      cases h
    · rw [hfc] at h
      injection h with h'
      injection h' with hp ht
      refine ⟨ht.symm, f, e2, rfl, ?_, ?_⟩
      · rw [← hp, ht]
      · rw [← hp]
        exact le_max_left 0 _

/-- C6, witness: a concrete output with neither summary line yields
`(0, 0)`. -/
theorem c6_witness : parse_unittest_output "hello world" = Except.ok (0, 0) :=
  (c6_parse_characterization "hello world").1 (by constructor <;> rfl)

/-! ## C9: `SessionStore.create` -/

/-- C9, counterexample: a provided duration of `0` is falsy in Python,
so `duration_minutes or DEFAULT_DURATION_MINUTES` replaces it with the
60-minute default instead of clamping it to
`max MIN_DURATION_MINUTES (min MAX_DURATION_MINUTES 0) = 1`. -/
theorem c9_counterexample :
    (SessionStore.create [] "sid" "q" (some 0) 0).1.duration_minutes = 60 ∧
    max MIN_DURATION_MINUTES (min MAX_DURATION_MINUTES 0) = 1 ∧
    (SessionStore.create [] "sid" "q" (some 0) 0).1.duration_minutes ≠
      max MIN_DURATION_MINUTES (min MAX_DURATION_MINUTES 0) := by
  refine ⟨rfl, rfl, ?_⟩
  decide

/-- C9, amended: for every provided nonzero duration `d`, the created
session's `duration_minutes` is `d` clamped into
`[MIN_DURATION_MINUTES, MAX_DURATION_MINUTES]` and `started_at` is the
creation-time clock value (`d = 0`, like an absent duration, falls back
to the default before clamping). -/
theorem c9_create_clamps (st : SessionStoreT) (sid q : String) (d : Int) (now : ℚ)
    (hd : d ≠ 0) :
    (SessionStore.create st sid q (some d) now).1.duration_minutes =
      max MIN_DURATION_MINUTES (min MAX_DURATION_MINUTES d) ∧
    (SessionStore.create st sid q (some d) now).1.started_at = now := by
  constructor
  · simp [SessionStore.create, hd]
  · rfl

/-- C9, witness: duration 500 is clamped to the 120-minute maximum and
`started_at` is stamped. -/
theorem c9_witness :
    (SessionStore.create [] "sid" "q" (some 500) 7).1.duration_minutes =
      max MIN_DURATION_MINUTES (min MAX_DURATION_MINUTES 500) ∧
    (SessionStore.create [] "sid" "q" (some 500) 7).1.started_at = 7 :=
  c9_create_clamps [] "sid" "q" 500 7 (by decide)

/-! ## C5: `ModeStateMachine.apply_voice_command` -/

/-- C5, counterexample: the claim says bot-phrase-then-human-phrase
always yields exactly two non-null transitions, but on a machine already
in `BOT_DRIVES` (the default initial mode) the first call is a no-op
returning `None` — as the repository's own
`test_transition_only_when_mode_changes` asserts. -/
theorem c5_counterexample :
    listContainsSub "take over".toList (normalize_utterance "take over") = true ∧
    (apply_voice_command Mode.bot_drives "take over").1 = none := by
  constructor <;> rfl

/-- C5, amended: on a machine currently in `HUMAN_DRIVES` mode, applying
an utterance `detect_mode_command` resolves to bot-drives and then one
it resolves to human-drives yields exactly two non-null transitions with
correctly ordered pairs (the second transition's `previous` is the first
transition's `current`, namely `BOT_DRIVES`). -/
theorem c5_two_transitions (u1 u2 : String)
    (h1 : detect_mode_command u1 = some Mode.bot_drives)
    (h2 : detect_mode_command u2 = some Mode.human_drives) :
    (apply_voice_command Mode.human_drives u1).1 =
      some { previous := Mode.human_drives, current := Mode.bot_drives, trigger := u1 } ∧
    (apply_voice_command (apply_voice_command Mode.human_drives u1).2 u2).1 =
      some { previous := Mode.bot_drives, current := Mode.human_drives, trigger := u2 } := by
  constructor
  · simp [apply_voice_command, h1, set_mode]
  · simp [apply_voice_command, h1, h2, set_mode]

/-- C5, witness: the concrete utterances `"take over"` / `"let me try"`. -/
theorem c5_witness :
    (apply_voice_command Mode.human_drives "take over").1 =
      some { previous := Mode.human_drives, current := Mode.bot_drives,
             trigger := "take over" } ∧
    (apply_voice_command (apply_voice_command Mode.human_drives "take over").2
        "let me try").1 =
      some { previous := Mode.bot_drives, current := Mode.human_drives,
             trigger := "let me try" } :=
  c5_two_transitions "take over" "let me try" (by rfl) (by rfl)

/-! ## Helper lemmas for the stage aggregation (C1, C2, C4) -/

theorem mapExcept_ok_mem {α β : Type} {f : α → Except PyErr β} :
    ∀ {l : List α} {bs : List β}, mapExcept f l = .ok bs → ∀ a ∈ l, ∃ b, f a = .ok b := by
  intro l
  induction l with
  | nil =>
    intro bs _ a ha
    cases ha
  | cons x xs ih =>
    intro bs h a ha
    unfold mapExcept at h
    rcases hfx : f x with e | b
    · rw [hfx] at h
      cases h
    · rw [hfx] at h
      rcases hmx : mapExcept f xs with e | bs'
      · rw [hmx] at h
        cases h
      · rcases List.mem_cons.mp ha with rfl | ha'
        · exact ⟨b, hfx⟩
        · exact ih hmx a ha'

theorem run_stage_tests_ok_mem {oracle : String → Except PyErr SuiteResult} {stg : Stage}
    {r : StageResult} (h : run_stage_tests oracle stg = .ok r) :
    ∀ t ∈ stg.visible_tests ++ stg.hidden_tests, ∃ b, oracle t = .ok b := by
  intro t ht
  unfold run_stage_tests at h
  rcases hv : mapExcept oracle stg.visible_tests with e | vis
  · rw [hv] at h
    cases h
  · rw [hv] at h
    rcases hh : mapExcept oracle stg.hidden_tests with e | hid
    · rw [hh] at h
      cases h
    · rcases List.mem_append.mp ht with ht' | ht'
      · exact mapExcept_ok_mem hv t ht'
      · exact mapExcept_ok_mem hh t ht'

theorem mapExcept_total {α β : Type} (g : α → β) :
    ∀ l : List α, mapExcept (fun a => (.ok (g a) : Except PyErr β)) l = .ok (l.map g) := by
  intro l
  induction l with
  | nil => rfl
  | cons x xs ih => simp [mapExcept, ih]

theorem run_stage_tests_total (f : String → SuiteResult) (stg : Stage) :
    run_stage_tests (fun t => .ok (f t)) stg = .ok (stageResPure f stg) := by
  unfold run_stage_tests
  rw [mapExcept_total, mapExcept_total]
  rfl

theorem mapExcept_stage_total (f : String → SuiteResult) :
    ∀ l : List Stage,
      mapExcept (run_stage_tests (fun t => .ok (f t))) l = .ok (l.map (stageResPure f)) := by
  intro l
  induction l with
  | nil => rfl
  | cons x xs ih => simp [mapExcept, run_stage_tests_total, ih]

theorem executedStages_take (cfg : QuestionConfig) (idx : Int) (h0 : 0 ≤ idx)
    (h1 : 1 ≤ cfg.stages.length) :
    executedStages cfg idx =
      cfg.stages.take ((min idx ((cfg.stages.length : Int) - 1)).toNat + 1) := by
  have hc : 0 ≤ min idx ((cfg.stages.length : Int) - 1) := by
    refine le_min h0 ?_
    omega
  unfold executedStages pySliceTo
  rw [if_neg (by omega)]
  congr 1
  omega

theorem executedStages_ne_nil (cfg : QuestionConfig) (idx : Int) (h0 : 0 ≤ idx)
    (h1 : 1 ≤ cfg.stages.length) : executedStages cfg idx ≠ [] := by
  rw [executedStages_take cfg idx h0 h1]
  intro hnil
  rcases List.take_eq_nil_iff.mp hnil with h' | h'
  · cases h'
  · rw [h'] at h1
    cases h1

theorem run_code_clamp (oracle : String → Except PyErr SuiteResult)
    (cfg : QuestionConfig) (idx : Int) :
    run_code oracle cfg idx =
      run_code oracle cfg (min idx ((cfg.stages.length : Int) - 1)) := by
  have hmin : min (min idx ((cfg.stages.length : Int) - 1)) ((cfg.stages.length : Int) - 1)
      = min idx ((cfg.stages.length : Int) - 1) := by
    rw [min_assoc, min_self]
  unfold run_code executedStages
  rw [hmin]

/-- Under a total oracle and a nonnegative requested index, `run_code`
returns normally and its `unlocked_next` field is the conjunction of
"all executed stages passed" and "another stage exists". -/
theorem run_code_total_unlocked (f : String → SuiteResult) (cfg : QuestionConfig)
    (idx : Int) (h0 : 0 ≤ idx) (h1 : 1 ≤ cfg.stages.length) :
    (run_code (fun t => .ok (f t)) cfg idx).toOption.map
        (fun r => r.stage.unlocked_next) =
      some (((executedStages cfg idx).map (stageResPure f)).all StageResult.passed &&
        decide (min idx ((cfg.stages.length : Int) - 1) + 1 < (cfg.stages.length : Int))) := by
  have hc : 0 ≤ min idx ((cfg.stages.length : Int) - 1) := by
    refine le_min h0 ?_
    omega
  have hclt : (min idx ((cfg.stages.length : Int) - 1)).toNat < cfg.stages.length := by
    have := min_le_right idx ((cfg.stages.length : Int) - 1)
    omega
  have hne : ((executedStages cfg idx).map (stageResPure f)).isEmpty = false := by
    have h' := executedStages_ne_nil cfg idx h0 h1
    rcases hes : executedStages cfg idx with _ | ⟨a, as⟩
    · exact absurd hes h'
    · rfl
  have hempty : cfg.stages.isEmpty = false := by
    rcases hst : cfg.stages with _ | ⟨a, as⟩
    · rw [hst] at h1
      cases h1
    · rfl
  obtain ⟨st, hget⟩ : ∃ st, cfg.stages.get? (min idx ((cfg.stages.length : Int) - 1)).toNat
      = some st := by
    rcases hg : cfg.stages.get? (min idx ((cfg.stages.length : Int) - 1)).toNat with _ | st
    · have := List.get?_eq_none.mp hg
      omega
    · exact ⟨st, rfl⟩
  have hpy : pyIndex cfg.stages (min idx ((cfg.stages.length : Int) - 1)) = some st := by
    unfold pyIndex
    rw [if_pos hc]
    exact hget
  unfold run_code
  rw [mapExcept_stage_total]
  simp only [hempty, hne, hpy, Option.map_eq_some', Bool.false_eq_true, if_false,
    Bool.not_false, Bool.true_and]
  exact ⟨_, rfl, rfl⟩

/-! ## C1: hard execution failures propagate out of `run_code` -/

/-- C1, counterexample: with every target raising the timeout
`ExecutionError`, `run_code` does not return an aggregated result — it
propagates the error (the HTTP layer, not the aggregator, turns it into
an error response). -/
theorem c1_counterexample :
    run_code oracleTimeout cfgTwoStages 0 = Except.error PyErr.execTimeout := by
  rfl

/-- C1, amended: `run_code` returns an aggregated result only when
every test target of every executed stage ran without a hard failure;
equivalently, one target's `ExecutionError` aborts the whole aggregation
by propagating (only nonzero exit codes degrade to "stage not
passed"). -/
theorem c1_propagates (oracle : String → Except PyErr SuiteResult)
    (cfg : QuestionConfig) (stage_index : Int)
    (h : isOkE (run_code oracle cfg stage_index) = true) :
    ∀ stg ∈ executedStages cfg stage_index,
      ∀ t ∈ stg.visible_tests ++ stg.hidden_tests, isOkE (oracle t) = true := by
  intro stg hstg t ht
  unfold run_code at h
  rcases hm : mapExcept (run_stage_tests oracle) (executedStages cfg stage_index)
    with e | rs
  · rw [hm] at h
    cases h
  · obtain ⟨r, hr⟩ := mapExcept_ok_mem hm stg hstg
    obtain ⟨b, hb⟩ := run_stage_tests_ok_mem hr t ht
    rw [hb]
    rfl

/-- C1, witness: with the all-pass oracle on the two-stage question the
aggregation returns, so the theorem applies and every executed target's
oracle call returned normally. -/
theorem c1_witness : isOkE (oracleAllPass "t.py") = true :=
  c1_propagates oracleAllPass cfgTwoStages 0 (by rfl) stageA (by decide) "t.py" (by decide)

/-! ## C2: index clamping in `run_code` -/

/-- C2, counterexample: the source clamps only from above
(`min(stage_index, len-1)`), so a negative requested index is not
clamped to 0: requesting `-1` runs no stage at all (`current_passed`
false, reported index `-1`) while requesting `0` runs stage 0. -/
theorem c2_counterexample :
    (run_code oracleAllPass cfgTwoStages (-1)).toOption.map
        (fun r => (r.stage.current_index, r.stage.current_passed)) = some (-1, false) ∧
    (run_code oracleAllPass cfgTwoStages 0).toOption.map
        (fun r => (r.stage.current_index, r.stage.current_passed)) = some (0, true) := by
  constructor <;> rfl

/-- C2, amended: for a nonnegative requested index and a nonempty stage
list, `run_code` clamps the index to `min idx (n-1) ∈ [0, n-1]`, runs
exactly stages `0 .. clamped`, and behaves identically to a request for
the clamped index.  (A negative requested index is *not* clamped up to
0; see the counterexample.) -/
theorem c2_clamps (oracle : String → Except PyErr SuiteResult) (cfg : QuestionConfig)
    (idx : Int) (h0 : 0 ≤ idx) (h1 : 1 ≤ cfg.stages.length) :
    0 ≤ min idx ((cfg.stages.length : Int) - 1) ∧
    min idx ((cfg.stages.length : Int) - 1) ≤ (cfg.stages.length : Int) - 1 ∧
    executedStages cfg idx =
      cfg.stages.take ((min idx ((cfg.stages.length : Int) - 1)).toNat + 1) ∧
    run_code oracle cfg idx =
      run_code oracle cfg (min idx ((cfg.stages.length : Int) - 1)) :=
  ⟨le_min h0 (by omega), min_le_right _ _, executedStages_take cfg idx h0 h1,
    run_code_clamp oracle cfg idx⟩

/-- C2, witness: requesting stage 5 of the two-stage question equals
requesting the clamped stage 1. -/
theorem c2_witness :
    0 ≤ min 5 ((cfgTwoStages.stages.length : Int) - 1) ∧
    min 5 ((cfgTwoStages.stages.length : Int) - 1) ≤ (cfgTwoStages.stages.length : Int) - 1 ∧
    executedStages cfgTwoStages 5 =
      cfgTwoStages.stages.take ((min 5 ((cfgTwoStages.stages.length : Int) - 1)).toNat + 1) ∧
    run_code oracleAllPass cfgTwoStages 5 =
      run_code oracleAllPass cfgTwoStages (min 5 ((cfgTwoStages.stages.length : Int) - 1)) :=
  c2_clamps oracleAllPass cfgTwoStages 5 (by decide) (by decide)

/-! ## C4: the unlock decision -/

/-- C4, counterexample: with every stage passing on a two-stage
question, the claimed equivalence predicts `unlocked_next = true` for
the requested index `-1` (clamped index 0 passed and `0 + 1 < 2`), but
`run_code` returns `unlocked_next = false` because a negative request
runs no stage at all. -/
theorem c4_counterexample :
    (run_code oracleAllPass cfgTwoStages (-1)).toOption.map
        (fun r => r.stage.unlocked_next) = some false ∧
    cfgTwoStages.stages.all (fun stg => (stageResPure suiteAll stg).passed) = true ∧
    cfgTwoStages.stages.length = 2 := by
  refine ⟨rfl, rfl, rfl⟩

/-- C4, amended: for a nonnegative requested index, `unlocked_next` is
true iff every executed stage (0 through the clamped index) passed and
another stage exists; consequently, if the stage at index `k ≤ idx`
fails, `unlocked_next` is false for this request — and since `idx` is
universally quantified, for every requested index `≥ k`. -/
theorem c4_unlock_iff (f : String → SuiteResult) (cfg : QuestionConfig) (idx : Int)
    (h0 : 0 ≤ idx) (h1 : 1 ≤ cfg.stages.length) :
    ((run_code (fun t => .ok (f t)) cfg idx).toOption.map
        (fun r => r.stage.unlocked_next) = some true ↔
      ((∀ stg ∈ executedStages cfg idx, (stageResPure f stg).passed = true) ∧
        min idx ((cfg.stages.length : Int) - 1) + 1 < (cfg.stages.length : Int))) ∧
    (∀ k : Nat, (k : Int) ≤ idx → ∀ stgk, cfg.stages.get? k = some stgk →
      (stageResPure f stgk).passed = false →
      (run_code (fun t => .ok (f t)) cfg idx).toOption.map
        (fun r => r.stage.unlocked_next) = some false) := by
  have hres := run_code_total_unlocked f cfg idx h0 h1
  constructor
  · rw [hres, Option.some_inj]
    simp only [Bool.and_eq_true, decide_eq_true_eq, List.all_eq_true]
    constructor
    · rintro ⟨hall, hlt⟩
      exact ⟨fun stg hstg => hall _ (List.mem_map_of_mem _ hstg), hlt⟩
    · rintro ⟨hall, hlt⟩
      refine ⟨fun b hb => ?_, hlt⟩
      rcases List.mem_map.mp hb with ⟨stg, hstg, rfl⟩
      exact hall stg hstg
  · intro k hk stgk hgk hfail
    have hkn : k < cfg.stages.length := by
      rcases Nat.lt_or_ge k cfg.stages.length with h' | h'
      · exact h'
      · rw [List.get?_eq_none.mpr h'] at hgk
        cases hgk
    have hmem : stgk ∈ executedStages cfg idx := by
      rw [executedStages_take cfg idx h0 h1]
      have hkc : k < (min idx ((cfg.stages.length : Int) - 1)).toNat + 1 := by
        have := min_le_right idx ((cfg.stages.length : Int) - 1)
        omega
      exact List.get?_mem ((List.get?_take hkc).trans hgk)
    rw [hres, Option.some_inj]
    have hallf : ((executedStages cfg idx).map (stageResPure f)).all StageResult.passed
        = false := by
      rcases hall : ((executedStages cfg idx).map (stageResPure f)).all StageResult.passed
        with _ | _
      · rfl
      · have := List.all_eq_true.mp hall _ (List.mem_map_of_mem _ hmem)
        rw [hfail] at this
        cases this
    rw [hallf]
    rfl

/-- C4, witness: requesting stage 0 of the passing two-stage question
unlocks the next stage, matching the equivalence. -/
theorem c4_witness :
    ((run_code (fun t => .ok (suiteAll t)) cfgTwoStages 0).toOption.map
        (fun r => r.stage.unlocked_next) = some true ↔
      ((∀ stg ∈ executedStages cfgTwoStages 0, (stageResPure suiteAll stg).passed = true) ∧
        min 0 ((cfgTwoStages.stages.length : Int) - 1) + 1 <
          (cfgTwoStages.stages.length : Int))) ∧
    (∀ k : Nat, (k : Int) ≤ 0 → ∀ stgk, cfgTwoStages.stages.get? k = some stgk →
      (stageResPure suiteAll stgk).passed = false →
      (run_code (fun t => .ok (suiteAll t)) cfgTwoStages 0).toOption.map
        (fun r => r.stage.unlocked_next) = some false) :=
  c4_unlock_iff suiteAll cfgTwoStages 0 (by decide) (by decide)

/-! ## Helper lemmas for substring matching and the file stores (C3, C10) -/

theorem listIsPre_iff (p : List Char) :
    ∀ l : List Char, listIsPre p l = true ↔ ∃ t, l = p ++ t := by
  induction p with
  | nil =>
    intro l
    simp [listIsPre]
  | cons x ps ih =>
    intro l
    cases l with
    | nil =>
      simp [listIsPre]
    | cons c cs =>
      simp only [listIsPre, Bool.and_eq_true, decide_eq_true_eq, ih]
      constructor
      · rintro ⟨rfl, t, rfl⟩
        exact ⟨t, rfl⟩
      · rintro ⟨t, ht⟩
        injection ht with h1 h2
        exact ⟨h1.symm, t, h2⟩

theorem lookupA_writeFile (n c : String) :
    ∀ (fs : List (String × String)) (m : String),
      lookupA (writeFile fs n c) m = if m = n then some c else lookupA fs m := by
  intro fs
  induction fs with
  | nil =>
    intro m
    by_cases h : m = n
    · subst h
      simp [writeFile, lookupA]
    · simp only [writeFile, lookupA]
      rw [if_neg (fun hh => h hh.symm), if_neg h]
  | cons p rest ih =>
    intro m
    rcases p with ⟨k, v⟩
    simp only [writeFile]
    by_cases hk : k = n
    · subst hk
      rw [if_pos rfl]
      simp only [lookupA]
      by_cases hm : k = m
      · subst hm
        simp
      · rw [if_neg hm, if_neg hm, if_neg (fun hh : m = k => hm hh.symm)]
    · rw [if_neg hk]
      simp only [lookupA]
      by_cases hm : k = m
      · subst hm
        simp [hk]
      · rw [if_neg hm, if_neg hm, ih m]

theorem countOccAux_nil (pat : List Char) : countOccAux pat [] = 0 := by
  simp [countOccAux]

/-- A pattern counted at least once decomposes the text around its
leftmost occurrence, and `replaceFirstAux` rewrites exactly there. -/
theorem count_pos_decomp (pat new : List Char) (hp : pat ≠ []) :
    ∀ hay, 1 ≤ countOccAux pat hay →
      ∃ pre suf, hay = pre ++ pat ++ suf ∧
        replaceFirstAux pat new hay = pre ++ new ++ suf := by
  intro hay
  induction hay with
  | nil =>
    intro h
    rw [countOccAux_nil] at h
    omega
  | cons c cs ih =>
    intro h
    by_cases hcond : (listIsPre pat (c :: cs) = true ∧ pat ≠ [])
    · obtain ⟨t, ht⟩ := (listIsPre_iff pat (c :: cs)).mp hcond.1
      obtain ⟨k, hk⟩ : ∃ k, pat.length = k + 1 := by
        rcases pat with _ | ⟨x, xs⟩
        · exact absurd rfl hp
        · exact ⟨xs.length, rfl⟩
      have hdrop : cs.drop (pat.length - 1) = t := by
        have h1 : (c :: cs).drop pat.length = t := by
          rw [ht, List.drop_left]
        rw [hk] at h1
        rw [hk]
        simpa using h1
      refine ⟨[], cs.drop (pat.length - 1), ?_, ?_⟩
      · rw [hdrop]
        simpa using ht
      · simp only [replaceFirstAux, if_pos hcond]
        rw [hdrop]
        simp [hdrop]
    · have hcount : countOccAux pat (c :: cs) = countOccAux pat cs := by
        simp only [countOccAux, if_neg hcond]
      rw [hcount] at h
      obtain ⟨pre, suf, h1, h2⟩ := ih h
      refine ⟨c :: pre, suf, by rw [h1]; rfl, ?_⟩
      simp only [replaceFirstAux, if_neg hcond]
      rw [h2]
      rfl

/-! ## C10: `QuestionWorkspace.apply_patch` -/

/-- C10, confirmed: `apply_patch` fails with a `WorkspaceError` (and
leaves the store untouched — no new store is produced) whenever
`old_text` occurs zero times or more than once; when it occurs exactly
once the file is rewritten around that single occurrence
(`pre ++ old ++ suf ↦ pre ++ new ++ suf`) and every other file is
unchanged.  Occurrence counting is the source's `str.count`
(non-overlapping, `len + 1` for the empty pattern). -/
theorem c10_apply_patch (ws : List (String × String)) (path old new content : String)
    (h : lookupA ws path = some content) :
    (pyCount content.toList old.toList ≠ 1 →
      apply_patch ws path old new =
        .error (.patchMatches (pyCount content.toList old.toList))) ∧
    (pyCount content.toList old.toList = 1 →
      ∃ pre suf, content.toList = pre ++ old.toList ++ suf ∧
        apply_patch ws path old new =
          .ok (writeFile ws path (String.mk (pre ++ new.toList ++ suf)),
               "Patched " ++ path ++ ".") ∧
        ∀ q, q ≠ path →
          lookupA (writeFile ws path (String.mk (pre ++ new.toList ++ suf))) q =
            lookupA ws q) := by
  constructor
  · intro hne
    simp only [apply_patch, h]
    rw [if_pos hne]
  · intro hone
    have hdec : ∃ pre suf, content.toList = pre ++ old.toList ++ suf ∧
        pyReplaceOne content.toList old.toList new.toList = pre ++ new.toList ++ suf := by
      by_cases hp : old.toList = []
      · unfold pyCount at hone
        rw [if_pos hp] at hone
        have hlen : content.toList = [] := by
          have : content.toList.length = 0 := by omega
          exact List.eq_nil_of_length_eq_zero this
        refine ⟨[], [], ?_, ?_⟩
        · rw [hlen, hp]
          rfl
        · unfold pyReplaceOne
          rw [if_pos hp, hlen]
          simp
      · unfold pyCount at hone
        rw [if_neg hp] at hone
        obtain ⟨pre, suf, h1, h2⟩ :=
          count_pos_decomp old.toList new.toList hp content.toList (by omega)
        refine ⟨pre, suf, h1, ?_⟩
        unfold pyReplaceOne
        rw [if_neg hp]
        exact h2
    obtain ⟨pre, suf, h1, h2⟩ := hdec
    refine ⟨pre, suf, h1, ?_, ?_⟩
    · simp only [apply_patch, h]
      rw [if_neg (fun hcon => hcon hone), h2]
    · intro q hq
      rw [lookupA_writeFile, if_neg hq]

/-- C10, witness: patching the unique `"world"` in `"hello world"`. -/
theorem c10_witness :
    (pyCount "hello world".toList "world".toList ≠ 1 →
      apply_patch [("f.py", "hello world")] "f.py" "world" "lean" =
        .error (.patchMatches (pyCount "hello world".toList "world".toList))) ∧
    (pyCount "hello world".toList "world".toList = 1 →
      ∃ pre suf, "hello world".toList = pre ++ "world".toList ++ suf ∧
        apply_patch [("f.py", "hello world")] "f.py" "world" "lean" =
          .ok (writeFile [("f.py", "hello world")] "f.py"
                 (String.mk (pre ++ "lean".toList ++ suf)),
               "Patched " ++ "f.py" ++ ".") ∧
        ∀ q, q ≠ "f.py" →
          lookupA (writeFile [("f.py", "hello world")] "f.py"
              (String.mk (pre ++ "lean".toList ++ suf))) q =
            lookupA [("f.py", "hello world")] q) :=
  c10_apply_patch [("f.py", "hello world")] "f.py" "world" "lean" "hello world" (by rfl)

/-! ## Helper lemmas for `materialize_question` (C3) -/

theorem materializeVisible_not_mem (root ov : List (String × String)) :
    ∀ (rels : List String) (dest : List (String × String)) (n : String), n ∉ rels →
      lookupA (materializeVisible root ov rels dest) n = lookupA dest n := by
  intro rels
  induction rels with
  | nil =>
    intro dest n _
    rfl
  | cons rel rest ih =>
    intro dest n hn
    have hrel : rel ≠ n := fun h => hn (h ▸ List.mem_cons_self rel rest)
    have hn' : n ∉ rest := fun h => hn (List.mem_cons_of_mem rel h)
    simp only [materializeVisible]
    rcases hcon : (match lookupA ov rel with
                   | some c => some c
                   | none => lookupA root rel) with _ | c
    · rw [hcon]
      exact ih dest n hn'
    · rw [hcon]
      rw [ih (writeFile dest rel c) n hn']
      rw [lookupA_writeFile, if_neg (fun hh => hrel hh.symm)]

theorem materializeRest_not_key (visible : List String) :
    ∀ (rest dest : List (String × String)) (n : String),
      n ∉ rest.map Prod.fst →
      lookupA (materializeRest visible rest dest) n = lookupA dest n := by
  intro rest
  induction rest with
  | nil =>
    intro dest n _
    rfl
  | cons p rst ih =>
    intro dest n hn
    rcases p with ⟨nm, c⟩
    have hnm : nm ≠ n := by
      intro h
      exact hn (by simp [h])
    have hn' : n ∉ rst.map Prod.fst := by
      intro h
      exact hn (by simp [h])
    simp only [materializeRest]
    by_cases h1 : nm ∈ visible
    · rw [if_pos h1]
      exact ih dest n hn'
    · rw [if_neg h1]
      by_cases h2 : nm = "question.json"
      · rw [if_pos h2]
        exact ih dest n hn'
      · rw [if_neg h2]
        rw [ih (writeFile dest nm c) n hn']
        rw [lookupA_writeFile, if_neg (fun hh => hnm hh.symm)]

theorem materializeRest_qjson (visible : List String) :
    ∀ (rest dest : List (String × String)),
      lookupA (materializeRest visible rest dest) "question.json" =
        lookupA dest "question.json" := by
  intro rest
  induction rest with
  | nil =>
    intro dest
    rfl
  | cons p rst ih =>
    intro dest
    rcases p with ⟨nm, c⟩
    simp only [materializeRest]
    by_cases h1 : nm ∈ visible
    · rw [if_pos h1]
      exact ih dest
    · rw [if_neg h1]
      by_cases h2 : nm = "question.json"
      · rw [if_pos h2]
        exact ih dest
      · rw [if_neg h2]
        rw [ih (writeFile dest nm c)]
        rw [lookupA_writeFile, if_neg (fun hh => h2 hh.symm)]

theorem materializeRest_lookup (visible : List String) (n : String)
    (hnv : n ∉ visible) (hnq : n ≠ "question.json") :
    ∀ (rest : List (String × String)), (rest.map Prod.fst).Nodup →
      ∀ dest, lookupA (materializeRest visible rest dest) n =
        (match lookupA rest n with
         | some c => some c
         | none => lookupA dest n) := by
  intro rest
  induction rest with
  | nil =>
    intro _ dest
    rfl
  | cons p rst ih =>
    intro hnd dest
    rcases p with ⟨nm, c⟩
    have hnd1 : (rst.map Prod.fst).Nodup := (List.nodup_cons.mp hnd).2
    have hnm_not : nm ∉ rst.map Prod.fst := (List.nodup_cons.mp hnd).1
    simp only [materializeRest, lookupA]
    by_cases h1 : nm ∈ visible
    · rw [if_pos h1]
      have hne : nm ≠ n := fun h => hnv (h ▸ h1)
      rw [if_neg hne]
      exact ih hnd1 dest
    · rw [if_neg h1]
      by_cases h2 : nm = "question.json"
      · rw [if_pos h2]
        have hne : nm ≠ n := fun h => hnq (by rw [← h, h2])
        rw [if_neg hne]
        exact ih hnd1 dest
      · rw [if_neg h2]
        by_cases h3 : nm = n
        · rw [if_pos h3]
          have hnot : n ∉ rst.map Prod.fst := h3 ▸ hnm_not
          rw [materializeRest_not_key visible rst (writeFile dest nm c) n hnot]
          rw [lookupA_writeFile, if_pos h3.symm]
        · rw [if_neg h3]
          rw [ih hnd1 (writeFile dest nm c)]
          rcases hrst : lookupA rst n with _ | cc
          · show lookupA (writeFile dest nm c) n = lookupA dest n
            rw [lookupA_writeFile, if_neg (fun hh => h3 hh.symm)]
          · rfl

/-! ## C3: the materializer trust boundary -/

/-- C3, confirmed: for any two candidate file maps, the destination
content at every name outside the question's candidate-editable set
(`visible_files`) is identical and equals the question's own stock copy
(with `question.json` never copied at all): candidate-supplied content
under such a name is never consulted. -/
theorem c3_trust_boundary (root : List (String × String)) (visible : List String)
    (ov1 ov2 : List (String × String)) (n : String)
    (hnd : (root.map Prod.fst).Nodup) (hn : n ∉ visible) :
    lookupA (materialize_question root visible ov1) n =
      lookupA (materialize_question root visible ov2) n ∧
    lookupA (materialize_question root visible ov1) n =
      (if n = "question.json" then none else lookupA root n) := by
  have key : ∀ ov, lookupA (materialize_question root visible ov) n =
      (if n = "question.json" then none else lookupA root n) := by
    intro ov
    unfold materialize_question
    by_cases hq : n = "question.json"
    · rw [if_pos hq]
      subst hq
      rw [materializeRest_qjson]
      rw [materializeVisible_not_mem root ov visible [] _ hn]
      rfl
    · rw [if_neg hq]
      rw [materializeRest_lookup visible n hn hq root hnd _]
      rcases hr : lookupA root n with _ | c
      · show lookupA (materializeVisible root ov visible []) n = none
        rw [materializeVisible_not_mem root ov visible [] _ hn]
        rfl
      · rfl
  exact ⟨(key ov1).trans (key ov2).symm, key ov1⟩

/-- C3, witness: a candidate override for the hidden test file
`hidden_level2.py` (not in `visible_files`) is ignored: both a malicious
and an empty submission leave the stock content in place. -/
theorem c3_witness :
    lookupA (materialize_question rootQ ["main.py"]
        [("hidden_level2.py", "EVIL"), ("main.py", "USER")]) "hidden_level2.py" =
      lookupA (materialize_question rootQ ["main.py"] []) "hidden_level2.py" ∧
    lookupA (materialize_question rootQ ["main.py"]
        [("hidden_level2.py", "EVIL"), ("main.py", "USER")]) "hidden_level2.py" =
      (if "hidden_level2.py" = "question.json" then none
       else lookupA rootQ "hidden_level2.py") :=
  c3_trust_boundary rootQ ["main.py"] [("hidden_level2.py", "EVIL"), ("main.py", "USER")]
    [] "hidden_level2.py" (by decide) (by decide)

/-! ## Helper lemmas for `SessionStore` (C8) -/

theorem pyIntTrunc_mono {a b : ℚ} (h : a ≤ b) : pyIntTrunc a ≤ pyIntTrunc b := by
  unfold pyIntTrunc
  by_cases ha : 0 ≤ a
  · rw [if_pos ha, if_pos (le_trans ha h)]
    exact Int.floor_mono h
  · rw [if_neg ha]
    by_cases hb : 0 ≤ b
    · rw [if_pos hb]
      have h1 : ⌈a⌉ ≤ 0 := by
        refine Int.ceil_le.mpr ?_
        push_cast
        linarith [lt_of_not_ge ha]
      have h2 : (0 : ℤ) ≤ ⌊b⌋ := by
        refine Int.le_floor.mpr ?_
        push_cast
        exact hb
      omega
    · rw [if_neg hb]
      exact Int.ceil_mono h

theorem remaining_nonneg (s : Session) (now : ℚ) : 0 ≤ remaining_seconds s now :=
  le_max_left 0 _

theorem remaining_antitone (s : Session) {now1 now2 : ℚ} (h : now1 ≤ now2) :
    remaining_seconds s now2 ≤ remaining_seconds s now1 := by
  unfold remaining_seconds
  refine max_le_max le_rfl ?_
  refine pyIntTrunc_mono ?_
  linarith

theorem onGet_expired (s : Session) (now : ℚ) (h : s.status = Status.expired) :
    (Session.onGet s now).status = Status.expired := by
  unfold Session.onGet
  rw [if_neg]
  · exact h
  · rintro ⟨h1, _⟩
    rw [h] at h1
    cases h1

theorem markScore_expired (s : Session) (score now : ℚ)
    (h : s.status = Status.expired) :
    (Session.markScore s score now).status = Status.expired := by
  unfold Session.markScore
  rw [if_neg]
  · exact h
  · rintro ⟨h1, _⟩
    exact h1 h

theorem advanceStage_expired (s : Session) (h : s.status = Status.expired) :
    (Session.advanceStage s).status = Status.expired := h

theorem onGet_status_iff (s : Session) (now : ℚ) :
    (Session.onGet s now).status = Status.expired ↔
      (s.status = Status.expired ∨ remaining_seconds s now = 0) := by
  unfold Session.onGet
  by_cases hc : (s.status = Status.active ∧ remaining_seconds s now ≤ 0)
  · rw [if_pos hc]
    constructor
    · intro _
      right
      have := remaining_nonneg s now
      omega
    · intro _
      rfl
  · rw [if_neg hc]
    constructor
    · intro h
      exact Or.inl h
    · rintro (h | h)
      · exact h
      · rcases hs : s.status with _ | _
        · exact absurd ⟨hs, by omega⟩ hc
        · rfl

theorem lookupA_updateS_ne (st : SessionStoreT) (k : String) (v : Session) (m : String)
    (h : m ≠ k) : lookupA (updateS st k v) m = lookupA st m := by
  induction st with
  | nil => rfl
  | cons p rest ih =>
    rcases p with ⟨k0, v0⟩
    simp only [updateS, List.map_cons]
    by_cases hk0 : k0 = k
    · rw [if_pos hk0]
      simp only [lookupA]
      rw [if_neg (fun hh : k = m => h hh.symm), if_neg (fun hh : k0 = m => h (hh.symm.trans hk0))]
      exact ih
    · rw [if_neg hk0]
      simp only [lookupA]
      by_cases hm : k0 = m
      · rw [if_pos hm, if_pos hm]
      · rw [if_neg hm, if_neg hm]
        exact ih

theorem lookupA_updateS_cases (st : SessionStoreT) (k : String) (v : Session)
    (m : String) (s1 : Session) (h : lookupA (updateS st k v) m = some s1) :
    (m = k ∧ s1 = v) ∨ (m ≠ k ∧ lookupA st m = some s1) := by
  by_cases hmk : m = k
  · left
    refine ⟨hmk, ?_⟩
    subst hmk
    induction st with
    | nil => cases h
    | cons p rest ih =>
      rcases p with ⟨k0, v0⟩
      simp only [updateS, List.map_cons] at h
      by_cases hk0 : k0 = m
      · rw [if_pos hk0] at h
        simp only [lookupA, if_true] at h
        injection h with h
        exact h.symm
      · rw [if_neg hk0] at h
        simp only [lookupA] at h
        rw [if_neg hk0] at h
        exact ih h
  · right
    refine ⟨hmk, ?_⟩
    rw [← lookupA_updateS_ne st k v m hmk]
    exact h

/-! ## C8: session expiry is lazy, exact and irreversible -/

/-- C8, confirmed: `remaining_seconds` is always nonnegative and
non-increasing as the clock advances; `SessionStore.get` marks the
fetched session expired exactly when its remaining time is 0; and no
store operation (`get`, `mark_score`, `advance_stage`) ever turns an
expired session back to active — per session and across the whole
store. -/
theorem c8_session_expiry (st : SessionStoreT) (sid : String) (now now1 now2 : ℚ)
    (s s0 : Session) (score : ℚ) (h12 : now1 ≤ now2) :
    0 ≤ remaining_seconds s now ∧
    remaining_seconds s now2 ≤ remaining_seconds s now1 ∧
    (lookupA st sid = some s0 →
      (SessionStore.get st sid now).1 = some (Session.onGet s0 now) ∧
      ((Session.onGet s0 now).status = Status.expired ↔
        (s0.status = Status.expired ∨ remaining_seconds s0 now = 0))) ∧
    (s.status = Status.expired →
      (Session.onGet s now).status = Status.expired ∧
      (Session.markScore s score now).status = Status.expired ∧
      (Session.advanceStage s).status = Status.expired) ∧
    (∀ id0 sx, lookupA st id0 = some sx → sx.status = Status.expired →
      (∀ s1, lookupA (SessionStore.get st sid now).2 id0 = some s1 →
        s1.status = Status.expired) ∧
      (∀ s1, lookupA (SessionStore.markScore st sid score now) id0 = some s1 →
        s1.status = Status.expired) ∧
      (∀ s1, lookupA (SessionStore.advanceStage st sid) id0 = some s1 →
        s1.status = Status.expired)) := by
  refine ⟨remaining_nonneg s now, remaining_antitone s h12, ?_, ?_, ?_⟩
  · intro hlk
    constructor
    · unfold SessionStore.get
      rw [hlk]
    · exact onGet_status_iff s0 now
  · intro hexp
    exact ⟨onGet_expired s now hexp, markScore_expired s score now hexp,
      advanceStage_expired s hexp⟩
  · intro id0 sx hlk0 hexp
    refine ⟨?_, ?_, ?_⟩
    · intro s1 hs1
      unfold SessionStore.get at hs1
      rcases hsid : lookupA st sid with _ | sfound
      · rw [hsid] at hs1
        rw [hlk0] at hs1
        injection hs1 with hs1
        rw [← hs1]
        exact hexp
      · rw [hsid] at hs1
        rcases lookupA_updateS_cases st sid _ id0 s1 hs1 with ⟨hid, rfl⟩ | ⟨_, hlk⟩
        · subst hid
          rw [hlk0] at hsid
          injection hsid with hsid
          refine onGet_expired sfound now ?_
          rw [← hsid]
          exact hexp
        · rw [hlk0] at hlk
          injection hlk with hlk
          rw [← hlk]
          exact hexp
    · intro s1 hs1
      unfold SessionStore.markScore at hs1
      rcases hsid : lookupA st sid with _ | sfound
      · rw [hsid] at hs1
        rw [hlk0] at hs1
        injection hs1 with hs1
        rw [← hs1]
        exact hexp
      · rw [hsid] at hs1
        rcases lookupA_updateS_cases st sid _ id0 s1 hs1 with ⟨hid, rfl⟩ | ⟨_, hlk⟩
        · subst hid
          rw [hlk0] at hsid
          injection hsid with hsid
          refine markScore_expired sfound score now ?_
          rw [← hsid]
          exact hexp
        · rw [hlk0] at hlk
          injection hlk with hlk
          rw [← hlk]
          exact hexp
    · intro s1 hs1
      unfold SessionStore.advanceStage at hs1
      rcases hsid : lookupA st sid with _ | sfound
      · rw [hsid] at hs1
        rw [hlk0] at hs1
        injection hs1 with hs1
        rw [← hs1]
        exact hexp
      · rw [hsid] at hs1
        rcases lookupA_updateS_cases st sid _ id0 s1 hs1 with ⟨hid, rfl⟩ | ⟨_, hlk⟩
        · subst hid
          rw [hlk0] at hsid
          injection hsid with hsid
          refine advanceStage_expired sfound ?_
          rw [← hsid]
          exact hexp
        · rw [hlk0] at hlk
          injection hlk with hlk
          rw [← hlk]
          exact hexp

/-- C8, witness: the one-minute session `sessA`, fetched at `now = 60`,
in the store alongside the already-expired `sessExp`. -/
theorem c8_witness :
    0 ≤ remaining_seconds sessA 60 ∧
    remaining_seconds sessA 20 ≤ remaining_seconds sessA 10 ∧
    (lookupA [("a", sessA), ("b", sessExp)] "a" = some sessA →
      (SessionStore.get [("a", sessA), ("b", sessExp)] "a" 60).1 =
        some (Session.onGet sessA 60) ∧
      ((Session.onGet sessA 60).status = Status.expired ↔
        (sessA.status = Status.expired ∨ remaining_seconds sessA 60 = 0))) ∧
    (sessA.status = Status.expired →
      (Session.onGet sessA 60).status = Status.expired ∧
      (Session.markScore sessA 50 60).status = Status.expired ∧
      (Session.advanceStage sessA).status = Status.expired) ∧
    (∀ id0 sx, lookupA [("a", sessA), ("b", sessExp)] id0 = some sx →
      sx.status = Status.expired →
      (∀ s1, lookupA (SessionStore.get [("a", sessA), ("b", sessExp)] "a" 60).2 id0 =
          some s1 → s1.status = Status.expired) ∧
      (∀ s1, lookupA (SessionStore.markScore [("a", sessA), ("b", sessExp)] "a" 50 60)
          id0 = some s1 → s1.status = Status.expired) ∧
      (∀ s1, lookupA (SessionStore.advanceStage [("a", sessA), ("b", sessExp)] "a")
          id0 = some s1 → s1.status = Status.expired)) :=
  c8_session_expiry [("a", sessA), ("b", sessExp)] "a" 60 10 20 sessA sessA 50
    (by norm_num)

/-! ## Helper lemmas for the `StruggleDetector` (C7) -/

/-- `_emit` behaviour: a suppressed call leaves the state untouched, an
emission stamps the signal with `now`, records `now` as the shared
last-signal time, and can only happen at least `nudge_cooldown` after
the previous emission. -/
theorem emit_spec (p : DetParams) (st : DetState) (kind : String) (now : ℚ)
    (ctx : List (String × CtxVal)) :
    ((emitSig p st kind now ctx).1 = none → (emitSig p st kind now ctx).2 = st) ∧
    (∀ sg, (emitSig p st kind now ctx).1 = some sg →
      sg.timestamp = now ∧ (emitSig p st kind now ctx).2.lastSignal = some now ∧
      ∀ t, st.lastSignal = some t → p.nudge_cooldown ≤ now - t) := by
  unfold emitSig
  rcases hls : st.lastSignal with _ | t0
  · dsimp only
    constructor
    · intro h
      cases h
    · intro sg h
      injection h with h
      subst h
      refine ⟨rfl, rfl, ?_⟩
      intro t ht
      cases ht
  · dsimp only
    by_cases hlt : now - t0 < p.nudge_cooldown
    · rw [if_pos hlt]
      exact ⟨fun _ => rfl, fun sg h => by cases h⟩
    · rw [if_neg hlt]
      constructor
      · intro h
        cases h
      · intro sg h
        injection h with h
        subst h
        refine ⟨rfl, rfl, ?_⟩
        intro t ht
        injection ht with ht
        subst ht
        linarith [not_lt.mp hlt]

/-- One dispatched event: no emission leaves the shared last-signal
time unchanged; an emission is stamped with the event's time, updates
the shared last-signal time, and respects the cooldown guard. -/
theorem detStep_spec (p : DetParams) (st : DetState) (e : DetEvent) :
    ((detStep p st e).1 = none → (detStep p st e).2.lastSignal = st.lastSignal) ∧
    (∀ sg, (detStep p st e).1 = some sg →
      sg.timestamp = eventTime e ∧
      (detStep p st e).2.lastSignal = some (eventTime e) ∧
      ∀ t, st.lastSignal = some t → p.nudge_cooldown ≤ eventTime e - t) := by
  cases e with
  | codeUpdate code now =>
    simp only [detStep, on_code_update, eventTime]
    rcases hgl : st.code_snapshots.getLast? with _ | prev
    · exact ⟨fun _ => rfl, fun sg h => by cases h⟩
    · dsimp only
      by_cases hlt : (code.length : Int) <
          pyIntTrunc ((prev.length : ℚ) * (1 - p.backtrack_frac))
      · rw [if_pos hlt]
        constructor
        · intro h
          rw [(emit_spec p st "backtrack" now _).1 h]
        · intro sg h
          exact (emit_spec p st "backtrack" now _).2 sg h
      · rw [if_neg hlt]
        exact ⟨fun _ => rfl, fun sg h => by cases h⟩
  | runResult exit_code stderr stage_index now =>
    simp only [detStep, on_run_result, eventTime]
    rcases hgl : st.run_results.getLast? with _ | trip
    · exact ⟨fun _ => rfl, fun sg h => by cases h⟩
    · rcases trip with ⟨e0, d0, i0⟩
      dsimp only
      by_cases hc : (e0 = exit_code ∧ d0 = p.digest stderr ∧ exit_code ≠ 0)
      · rw [if_pos hc]
        constructor
        · intro h
          rw [(emit_spec p _ "repeated_failure" now _).1 h]
        · intro sg h
          exact (emit_spec p _ "repeated_failure" now _).2 sg h
      · rw [if_neg hc]
        exact ⟨fun _ => rfl, fun sg h => by cases h⟩
  | levelStart level now =>
    simp only [detStep, on_level_start, eventTime]
    refine ⟨?_, ?_⟩
    · intros
      trivial
    · intro sg h
      cases h
  | userMessage message now =>
    simp only [detStep, on_user_message, eventTime]
    rcases hx : helpMarkers.any
        (fun mk => listContainsSub mk.toList (pyLower message.toList)) with _ | _
    · simp only [Bool.false_eq_true, if_false]
      refine ⟨?_, ?_⟩
      · intros
        trivial
      · intro sg h
        cases h
    · rw [if_pos rfl]
      constructor
      · intro h
        rw [(emit_spec p st "explicit_ask" now _).1 h]
      · exact (emit_spec p st "explicit_ask" now _).2
  | idleCheck tests_still_failing now =>
    simp only [detStep, check_idle, eventTime]
    rcases hle : st.last_edit_time with _ | le
    · exact ⟨fun _ => rfl, fun sg h => by cases h⟩
    · dsimp only
      rcases hb : tests_still_failing with _ | _
      · simp only [Bool.not_false]
        rw [if_pos True.intro]
        refine ⟨?_, ?_⟩
        · intros
          trivial
        · intro sg h
          cases h
      · simp only [Bool.not_true, Bool.false_eq_true, if_false]
        by_cases hth : p.idle_threshold_seconds ≤ now - le
        · rw [if_pos hth]
          constructor
          · intro h
            rw [(emit_spec p st "long_pause" now _).1 h]
          · exact (emit_spec p st "long_pause" now _).2
        · rw [if_neg hth]
          exact ⟨fun _ => rfl, fun sg h => by cases h⟩
  | levelWallCheck level now =>
    simp only [detStep, check_level_wall, eventTime]
    rcases hst : lookupI st.level_start_time level with _ | started
    · exact ⟨fun _ => rfl, fun sg h => by cases h⟩
    · dsimp only
      by_cases hth : p.level_wall_seconds ≤ now - started
      · rw [if_pos hth]
        constructor
        · intro h
          rw [(emit_spec p st "level_wall" now _).1 h]
        · exact (emit_spec p st "level_wall" now _).2
      · rw [if_neg hth]
        exact ⟨fun _ => rfl, fun sg h => by cases h⟩

/-- The fold over an event trace: with non-decreasing timestamps and a
nonnegative cooldown, the emitted signals are pairwise at least
`nudge_cooldown` apart, and every emission lies at least a cooldown
after whatever last-signal time the initial state carried. -/
theorem processEvents_spec (p : DetParams) (hcd : 0 ≤ p.nudge_cooldown) :
    ∀ (evs : List DetEvent) (st : DetState),
      (evs.map eventTime).Pairwise (· ≤ ·) →
      (∀ t, st.lastSignal = some t → ∀ e ∈ evs, t ≤ eventTime e) →
      (processEvents p st evs).1.Pairwise
        (fun a b => p.nudge_cooldown ≤ b.timestamp - a.timestamp) ∧
      (∀ sg ∈ (processEvents p st evs).1,
        (∀ t, st.lastSignal = some t → p.nudge_cooldown ≤ sg.timestamp - t) ∧
        sg.timestamp ∈ evs.map eventTime) := by
  intro evs
  induction evs with
  | nil =>
    intro st _ _
    refine ⟨List.Pairwise.nil, ?_⟩
    intro sg hsg
    cases hsg
  | cons e es ih =>
    intro st hmono hclock
    have hmono' : (es.map eventTime).Pairwise (· ≤ ·) :=
      (List.pairwise_cons.mp (by simpa using hmono)).2
    have hhead : ∀ t' ∈ es.map eventTime, eventTime e ≤ t' :=
      (List.pairwise_cons.mp (by simpa using hmono)).1
    simp only [processEvents]
    rcases hstep : detStep p st e with ⟨o, st1⟩
    dsimp only
    rcases hrec : processEvents p st1 es with ⟨sigs, st2⟩
    dsimp only
    cases o with
    | none =>
      have hlast : st1.lastSignal = st.lastSignal := by
        have h' := (detStep_spec p st e).1 (by rw [hstep])
        rw [hstep] at h'
        exact h'
      have hclock' : ∀ t, st1.lastSignal = some t → ∀ e' ∈ es, t ≤ eventTime e' := by
        intro t ht e' he'
        rw [hlast] at ht
        exact hclock t ht e' (List.mem_cons_of_mem e he')
      obtain ⟨ihp, ihm⟩ := ih st1 hmono' hclock'
      rw [hrec] at ihp ihm
      constructor
      · simpa using ihp
      · intro sg hsg
        simp only [Option.toList, List.nil_append] at hsg
        obtain ⟨hcool, htime⟩ := ihm sg hsg
        constructor
        · intro t ht
          exact hcool t (by rw [hlast]; exact ht)
        · rw [List.map_cons]
          exact List.mem_cons_of_mem _ htime
    | some sg0 =>
      obtain ⟨hts, hlast, hguard⟩ := (detStep_spec p st e).2 sg0 (by rw [hstep])
      rw [hstep] at hlast
      have hclock' : ∀ t, st1.lastSignal = some t → ∀ e' ∈ es, t ≤ eventTime e' := by
        intro t ht e' he'
        have ht' : some (eventTime e) = some t := by
          rw [← hlast]
          exact ht
        injection ht' with ht'
        rw [← ht']
        exact hhead _ (List.mem_map_of_mem _ he')
      obtain ⟨ihp, ihm⟩ := ih st1 hmono' hclock'
      rw [hrec] at ihp ihm
      constructor
      · refine List.pairwise_cons.mpr ⟨?_, ihp⟩
        intro sg hsg
        obtain ⟨hcool, _⟩ := ihm sg hsg
        have h' := hcool (eventTime e) hlast
        rw [hts]
        exact h'
      · intro sg hsg
        simp only [Option.toList, List.singleton_append] at hsg
        rcases List.mem_cons.mp hsg with rfl | hsg'
        · constructor
          · intro t ht
            rw [hts]
            exact hguard t ht
          · rw [hts, List.map_cons]
            exact List.mem_cons_self _ _
        · obtain ⟨hcool, htime⟩ := ihm sg hsg'
          constructor
          · intro t ht
            have h1 := hcool (eventTime e) hlast
            have h2 := hguard t ht
            linarith
          · rw [List.map_cons]
            exact List.mem_cons_of_mem _ htime

/-! ## C7: the cooldown is global across all signal kinds -/

/-- C7, confirmed: over any event trace with non-decreasing injected
timestamps, the signals the detector emits (across all kinds —
backtrack, repeated failure, explicit ask, long pause, level wall) are
pairwise at least `nudge_cooldown` seconds apart: every emission updates
the one shared last-signal timestamp and a signal due within the
cooldown window is suppressed entirely (the call yields no signal), not
queued. -/
theorem c7_global_cooldown (p : DetParams) (evs : List DetEvent)
    (hcd : 0 ≤ p.nudge_cooldown)
    (hmono : (evs.map eventTime).Pairwise (· ≤ ·)) :
    (processEvents p initDetState evs).1.Pairwise
      (fun a b => p.nudge_cooldown ≤ b.timestamp - a.timestamp) :=
  (processEvents_spec p hcd evs initDetState hmono (fun _ ht => nomatch ht)).1

/-- C7, witness: two help requests 10 seconds apart under a 60-second
cooldown (the second is suppressed; the conclusion follows from the
theorem at this concrete trace). -/
theorem c7_witness :
    (processEvents detP initDetState
        [DetEvent.userMessage "help" 0,
         DetEvent.userMessage "still stuck" 10]).1.Pairwise
      (fun a b => detP.nudge_cooldown ≤ b.timestamp - a.timestamp) :=
  c7_global_cooldown detP
    [DetEvent.userMessage "help" 0, DetEvent.userMessage "still stuck" 10]
    (by norm_num [detP])
    (by norm_num [eventTime, List.pairwise_cons])

end PairHelper
